import Mathlib

/-!
Verification of the natural-language specification of `udp-obfuscat`, a
bidirectional UDP proxy with pluggable per-datagram payload transforms,
against a shallow embedding of its Rust source.

Bytes are modelled as `Nat` (all operations used — `Nat.xor` — stay below
256 on byte inputs, so no wrap-around modelling is needed).  In-place
mutation of a `&mut [u8]` buffer is modelled by returning the new buffer
contents; a Rust panic is modelled as `Option.none`; `Result` values from
the runtime (socket operations, DNS lookups) are modelled as `Except` or
as oracle inputs given to the embedded step functions.
-/

namespace UdpObfuscat

/-- `common::MAX_DATAGRAM_SIZE = u16::MAX as usize`: size of every reused
datagram buffer (`common::datagram_buffer`). -/
def MAX_DATAGRAM_SIZE : Nat := 65535

/-- Embeds `filters::Xor { key: Vec<u8> }` (src/filters/xor.rs). -/
structure Xor where
  key : List Nat
deriving DecidableEq

/-- Helper embedding the loop
`for (plain_char, key_char) in data.iter_mut().zip(self.key.iter().cycle())`
for a NON-empty key: byte `i` of `data` (counting from start index `i0`)
is xored with `key[(i0 + i) % key.len()]`; the cycled iterator is
infinite, so every byte of `data` is visited. -/
def xorCycle (key : List Nat) : Nat → List Nat → List Nat
  | _, [] => []
  | i, b :: rest => (b ^^^ key.getD (i % key.length) 0) :: xorCycle key (i + 1) rest

/-- Embeds `Xor::transform` (src/filters/xor.rs, lines 12–16): zips the
buffer with the cycled key and xors in place.  When the key is empty,
`key.iter().cycle()` is the empty iterator, the zip produces nothing
and the loop body never runs, so the buffer is left unchanged. -/
def Xor.transform (f : Xor) (data : List Nat) : List Nat :=
  if f.key.isEmpty then data else xorCycle f.key 0 data

/-- Embeds `filters::Head { parent: Box<IFilter>, n: usize }`
(src/filters/head.rs).  The boxed trait object `parent` is modelled as a
function on buffer contents; every Rust `Transform` acts in place on a
`&mut [u8]` and therefore preserves length, which appears as an explicit
hypothesis where needed. -/
structure Head where
  parent : List Nat → List Nat
  n : Nat

/-- Embeds `Head::transform` (src/filters/head.rs, lines 11–14):
`let part = &mut data[..self.n]; self.parent.transform(part)`.
The slice expression `data[..self.n]` PANICS when `self.n > data.len()`;
the panic is modelled as `none`.  Otherwise the parent transforms the
prefix in place and the suffix is untouched. -/
def Head.transform (h : Head) (data : List Nat) : Option (List Nat) :=
  if h.n ≤ data.length then some (h.parent (data.take h.n) ++ data.drop h.n) else none

/-- The behaviour of `Head` specified in the documentation: the prefix
actually present, `data[..min(n, len(data))]`, is transformed and no
error is raised.  Kept separate from `Head.transform`, which embeds the
source, so the two can be compared. -/
def headSpecTransform (parent : List Nat → List Nat) (n : Nat) (data : List Nat) : List Nat :=
  parent (data.take (min n data.length)) ++ data.drop (min n data.length)

/-- Model of `std::net::SocketAddr` for the DNS filter: its address
family (`is_ipv4` / `is_ipv6 = !is_ipv4`) plus an identifier
distinguishing concrete addresses. -/
structure SocketAddress where
  isV4 : Bool
  ident : Nat
deriving DecidableEq

/-- Embeds `dns::ResolveOptions` (src/dns.rs): two booleans, default
false. -/
structure ResolveOptions where
  ipv4_only : Bool
  ipv6_only : Bool
deriving DecidableEq

/-- The error cases of `resolve_and_filter_ips`, in source order. -/
inductive DnsError where
  | emptyInput
  | resolveFailed (addr : Nat)
  | noAddresses
  | noIpv4
  | noIpv6
deriving DecidableEq

/-- Embeds the resolution loop of `resolve_and_filter_ips`
(src/dns.rs): `tokio::net::lookup_host` is modelled by the oracle
`resolved` mapping a host string (modelled as a `Nat` name) to its list
of addresses, or `none` when resolution fails.  The loop extends `ret`
with each host's addresses in order and aborts with the first failure
(the `?` operator). -/
def lookupHosts (resolved : Nat → Option (List SocketAddress)) :
    List Nat → Except DnsError (List SocketAddress)
  | [] => Except.ok []
  | a :: rest =>
    match resolved a with
    | none => Except.error (DnsError.resolveFailed a)
    | some ips =>
      match lookupHosts resolved rest with
      | Except.error e => Except.error e
      | Except.ok tail => Except.ok (ips ++ tail)

/-- Embeds `dns::resolve_and_filter_ips` (src/dns.rs, lines 56–89):
bail on empty input; resolve every name (first failure aborts); bail if
nothing resolved; then `if ipv4_only { retain is_ipv4 } else if
ipv6_only { retain is_ipv6 }`, bailing when the retained list is
empty. -/
def resolve_and_filter_ips (resolved : Nat → Option (List SocketAddress))
    (addresses : List Nat) (ro : ResolveOptions) : Except DnsError (List SocketAddress) :=
  if addresses.isEmpty then Except.error DnsError.emptyInput else
  match lookupHosts resolved addresses with
  | Except.error e => Except.error e
  | Except.ok ret =>
    if ret.isEmpty then Except.error DnsError.noAddresses
    else if ro.ipv4_only then
      let kept := ret.filter (fun a => a.isV4)
      if kept.isEmpty then Except.error DnsError.noIpv4 else Except.ok kept
    else if ro.ipv6_only then
      let kept := ret.filter (fun a => !a.isV4)
      if kept.isEmpty then Except.error DnsError.noIpv6 else Except.ok kept
    else Except.ok ret

/-- The part of `proxy::UdpProxy` the forwarding claims depend on: the
shared immutable transform `packet_transformer` applied on both the
ingress and the reply path. -/
structure UdpProxy where
  packet_transformer : List Nat → List Nat

/-- Models `recv` / `recv_from` writing a datagram into the front of a
reused buffer: the kernel copies at most `buf.len()` bytes and returns
the count; the rest of the buffer keeps its previous contents.  Returns
the new buffer contents and `recv_len`. -/
def recvInto (readBuf dgram : List Nat) : List Nat × Nat :=
  let recvLen := min dgram.length readBuf.length
  (dgram.take recvLen ++ readBuf.drop recvLen, recvLen)

/-- Outcome of one iteration of `UdpProxy::run` (src/proxy.rs, lines
131–163).  `fatalErr` models an error propagated out of the loop with
`?` (terminating `run`); the two `Logged` outcomes model
`log::error!` followed by falling through to the next iteration;
`okSent` models the silent success path.  Every outcome other than
`fatalErr` continues the loop. -/
inductive IngressOutcome where
  | fatalErr (e : Nat)
  | okSent
  | shortSendLogged (sendLen recvLen : Nat)
  | sendErrLogged (e : Nat)
deriving DecidableEq

/-- Result of one embedded ingress iteration: the outcome, the payload
passed to `ct_value.sock.send` (`none` when no send was attempted), and
the reused buffer's contents for the next iteration. -/
structure IngressResult where
  outcome : IngressOutcome
  sentPayload : Option (List Nat)
  readBuf : List Nat

/-- Embeds one iteration of the ingress loop `UdpProxy::run`
(src/proxy.rs, lines 131–163).  Oracle inputs: `recvFromResult` is the
datagram delivered by `listener.recv_from` (or its error),
`ctResult` the result of `get_or_insert_conntrack_entry` (whose error —
a failed upstream connect — propagates with `?`), and `sendResult` the
result of `ct_value.sock.send`.  On the success path the first
`recv_len` bytes of the buffer are transformed in place and passed to
`send`; a short send or a send error is logged and the loop
continues. -/
def UdpProxy.runIteration (p : UdpProxy) (readBuf : List Nat)
    (recvFromResult : Except Nat (List Nat)) (ctResult : Except Nat Unit)
    (sendResult : Except Nat Nat) : IngressResult :=
  match recvFromResult with
  | Except.error e => ⟨IngressOutcome.fatalErr e, none, readBuf⟩
  | Except.ok dgram =>
    match ctResult with
    | Except.error e => ⟨IngressOutcome.fatalErr e, none, readBuf⟩
    | Except.ok _ =>
      let step := recvInto readBuf dgram
      let payload := p.packet_transformer (step.1.take step.2)
      let nextBuf := payload ++ step.1.drop step.2
      match sendResult with
      | Except.ok sendLen =>
        if sendLen ≠ step.2 then
          ⟨IngressOutcome.shortSendLogged sendLen step.2, some payload, nextBuf⟩
        else ⟨IngressOutcome.okSent, some payload, nextBuf⟩
      | Except.error e => ⟨IngressOutcome.sendErrLogged e, some payload, nextBuf⟩

/-- The three arms of the `tokio::select!` in `UdpProxy::reply_loop`
(src/proxy.rs, lines 62–93): the idle `sleep` firing, `sock.recv`
completing (with a datagram or an error), or `has_data_in.notified()`
firing. -/
inductive UpstreamEvent where
  | timeoutFired
  | recvCompleted (r : Except Nat (List Nat))
  | dataIn

/-- Outcome of one `reply_loop` iteration: `exitOk` models `break`
(idle timeout, the loop returns `Ok(())`); `exitErr` models an error
propagated with `?` (the task's loop exits and the spawn wrapper logs
it); `continueLoop` models re-entering the select. -/
inductive ReplyOutcome where
  | exitOk
  | exitErr (e : Nat)
  | continueLoop
deriving DecidableEq

/-- Result of one embedded reply-loop iteration: outcome, the payload
passed to `listener.send_to` (`none` when no send was attempted), and
the reused buffer's contents for the next iteration. -/
structure ReplyResult where
  outcome : ReplyOutcome
  sentPayload : Option (List Nat)
  readBuf : List Nat

/-- Embeds one iteration of `UdpProxy::reply_loop` (src/proxy.rs, lines
62–93).  On timeout the loop breaks; a `recv` error propagates with
`?`; on a received datagram the first `recv_len` bytes are transformed
in place and passed to `listener.send_to`, whose ERROR also propagates
with `?` (exiting the loop) and whose success count is ignored; the
`has_data_in` arm only rearms the timer. -/
def UdpProxy.replyIteration (p : UdpProxy) (readBuf : List Nat)
    (ev : UpstreamEvent) (sendToResult : Except Nat Nat) : ReplyResult :=
  match ev with
  | UpstreamEvent.timeoutFired => ⟨ReplyOutcome.exitOk, none, readBuf⟩
  | UpstreamEvent.dataIn => ⟨ReplyOutcome.continueLoop, none, readBuf⟩
  | UpstreamEvent.recvCompleted (Except.error e) => ⟨ReplyOutcome.exitErr e, none, readBuf⟩
  | UpstreamEvent.recvCompleted (Except.ok dgram) =>
    let step := recvInto readBuf dgram
    let payload := p.packet_transformer (step.1.take step.2)
    let nextBuf := payload ++ step.1.drop step.2
    match sendToResult with
    | Except.error e => ⟨ReplyOutcome.exitErr e, some payload, nextBuf⟩
    | Except.ok _ => ⟨ReplyOutcome.continueLoop, some payload, nextBuf⟩

/-- Result of `UdpProxy::get_or_insert_conntrack_entry`: the entry
handed back to the caller, the table after the call, and whether a new
upstream socket was created (`connect_udp_socket` ran). -/
structure GetOrInsertResult where
  entry : Nat
  table : List (Nat × Nat)
  createdSocket : Bool
deriving DecidableEq

/-- Embeds `UdpProxy::get_or_insert_conntrack_entry` (src/proxy.rs,
lines 94–129), executed under `conntrack_table.lock()`.  The
`HashMap<SocketAddr, Arc<ConntrackValue>>` is modelled as an
association list with `Nat` keys (peer addresses) and `Nat` values
(entry identities); `connectResult` is the oracle result of
`connect_udp_socket`, run only on the `Entry::Vacant` branch, whose
error propagates with `?` before anything is inserted.  On the
`Entry::Occupied` branch the existing entry is returned and the table
is untouched. -/
def get_or_insert_conntrack_entry (table : List (Nat × Nat)) (peer : Nat)
    (connectResult : Except Nat Nat) : Except Nat GetOrInsertResult :=
  match table.lookup peer with
  | some e => Except.ok ⟨e, table, false⟩
  | none =>
    match connectResult with
    | Except.error e => Except.error e
    | Except.ok fresh => Except.ok ⟨fresh, (peer, fresh) :: table, true⟩

/-- `HashMap::remove(&peer_addr)` on the association-list model: drops
the entry for that key (with distinct keys, at most one exists). -/
def removeKey (table : List (Nat × Nat)) (peer : Nat) : List (Nat × Nat) :=
  table.filter (fun kv => kv.1 ≠ peer)

/-- Global state of the conntrack layer for the interleaved model of
`UdpProxy::run` and the spawned reply tasks: the table, the keys whose
reply task is still inside its loop, the keys whose reply task's loop
has exited but whose removal (the code after `reply_loop` returns in
the `tokio::spawn` block) has not yet run, and a counter supplying
fresh entry identities. -/
structure FlowSys where
  table : List (Nat × Nat)
  looping : List Nat
  pending : List Nat
  nextId : Nat
deriving DecidableEq

/-- Startup state: empty table, no tasks. -/
def FlowSys.init : FlowSys := ⟨[], [], [], 0⟩

/-- One scheduler step of the conntrack layer.  `ingressVacant` is the
`Entry::Vacant` branch of `get_or_insert_conntrack_entry`: insert the
entry and spawn the reply task (all under the table lock);
`ingressOccupied` is the `Entry::Occupied` branch: no state change.
`loopExit` is `reply_loop` returning (idle timeout or upstream recv or
listener send_to error): the task leaves its loop and its removal
becomes pending.  `removeEntry` is the spawned task re-acquiring the
lock and running `conntrack_lock.remove(&peer_addr)`. -/
inductive FlowStep : FlowSys → FlowSys → Prop where
  | ingressVacant (s : FlowSys) (peer : Nat) (h : s.table.lookup peer = none) :
      FlowStep s ⟨(peer, s.nextId) :: s.table, peer :: s.looping, s.pending, s.nextId + 1⟩
  | ingressOccupied (s : FlowSys) (peer e : Nat) (h : s.table.lookup peer = some e) :
      FlowStep s s
  | loopExit (s : FlowSys) (peer : Nat) (h : peer ∈ s.looping) :
      FlowStep s ⟨s.table, s.looping.erase peer, peer :: s.pending, s.nextId⟩
  | removeEntry (s : FlowSys) (peer : Nat) (h : peer ∈ s.pending) :
      FlowStep s ⟨removeKey s.table peer, s.looping, s.pending.erase peer, s.nextId⟩

/-- States reachable from startup by interleaved steps. -/
inductive FlowReach : FlowSys → Prop where
  | init : FlowReach FlowSys.init
  | step {s t : FlowSys} : FlowReach s → FlowStep s t → FlowReach t

/-- `xorCycle` preserves the buffer length. -/
theorem xorCycle_length (key : List Nat) :
    ∀ (i : Nat) (data : List Nat), (xorCycle key i data).length = data.length := by
  intro i data
  induction data generalizing i with
  | nil => rfl
  | cons b rest ih => simp [xorCycle, ih]

/-- `Xor::transform` preserves the buffer length (it mutates in place). -/
theorem Xor.transform_length (f : Xor) (data : List Nat) :
    (f.transform data).length = data.length := by
  unfold Xor.transform
  split
  · rfl
  · exact xorCycle_length f.key 0 data

/-- Applying the cycled-key xor twice from the same start index restores
the buffer. -/
theorem xorCycle_xorCycle (key : List Nat) :
    ∀ (i : Nat) (data : List Nat), xorCycle key i (xorCycle key i data) = data := by
  intro i data
  induction data generalizing i with
  | nil => rfl
  | cons b rest ih =>
    simp only [xorCycle, ih]
    rw [Nat.xor_cancel_right (key.getD (i % key.length) 0) b]

/-- `Xor::transform` is an involution. -/
theorem Xor.transform_transform (f : Xor) (data : List Nat) :
    f.transform (f.transform data) = data := by
  unfold Xor.transform
  split
  · rfl
  · exact xorCycle_xorCycle f.key 0 data

/-- Pointwise description of `xorCycle`: position `j` is xored with the
key byte at cycled index `i + j`. -/
theorem xorCycle_getD (key : List Nat) :
    ∀ (data : List Nat) (i j : Nat), j < data.length →
      (xorCycle key i data).getD j 0
        = data.getD j 0 ^^^ key.getD ((i + j) % key.length) 0 := by
  intro data
  induction data with
  | nil => intro i j h; simp at h
  | cons b rest ih =>
    intro i j h
    match j with
    | 0 => simp [xorCycle]
    | j + 1 =>
      have hlt : j < rest.length := by simpa using h
      have := ih (i + 1) j hlt
      simp only [xorCycle, List.getD_cons_succ]
      rw [this]
      have harith : i + 1 + j = i + (j + 1) := by omega
      rw [harith]

/-- Looking up a freshly consed key returns the new entry. -/
theorem lookup_cons_self (t : List (Nat × Nat)) (k v : Nat) :
    ((k, v) :: t).lookup k = some v := by
  simp [List.lookup]

/-- Consing an entry for one key leaves lookups of other keys
unchanged. -/
theorem lookup_cons_ne (t : List (Nat × Nat)) (k v j : Nat) (h : j ≠ k) :
    ((k, v) :: t).lookup j = t.lookup j := by
  simp [List.lookup, beq_eq_false_iff_ne.mpr h]

/-- `lookup k = none` means `k` is not among the association list's
keys. -/
theorem not_mem_keys_of_lookup_none (t : List (Nat × Nat)) (k : Nat)
    (h : t.lookup k = none) : k ∉ t.map Prod.fst := by
  induction t with
  | nil => simp
  | cons p rest ih =>
    simp only [List.lookup] at h
    intro hmem
    cases hbeq : (k == p.1) with
    | true => rw [hbeq] at h; simp at h
    | false =>
      rw [hbeq] at h
      have hne : k ≠ p.1 := by simpa using hbeq
      rcases (by simpa using hmem : k = p.1 ∨ k ∈ rest.map Prod.fst) with heq | hmem2
      · exact hne heq
      · exact ih h hmem2

/-- `HashMap::remove` (modelled by `removeKey`) leaves no entry for the
removed key. -/
theorem lookup_removeKey_self (t : List (Nat × Nat)) (p : Nat) :
    (removeKey t p).lookup p = none := by
  induction t with
  | nil => rfl
  | cons kv rest ih =>
    by_cases h : kv.1 = p
    · simpa [removeKey, List.filter_cons, h] using ih
    · simp only [removeKey, List.filter_cons, decide_eq_true_eq, if_pos h] at ih ⊢
      cases kv with
      | mk k v =>
        rw [lookup_cons_ne _ k v p (by simpa using Ne.symm h)]
        exact ih

/-- `removeKey` leaves lookups of other keys unchanged. -/
theorem lookup_removeKey_ne (t : List (Nat × Nat)) (p k : Nat) (h : k ≠ p) :
    (removeKey t p).lookup k = t.lookup k := by
  induction t with
  | nil => rfl
  | cons kv rest ih =>
    cases kv with
    | mk a v =>
      by_cases ha : a = p
      · subst ha
        simp only [removeKey, List.filter_cons, decide_eq_true_eq] at ih ⊢
        rw [if_neg (by simp)]
        rw [ih, lookup_cons_ne _ a v k h]
      · simp only [removeKey, List.filter_cons, decide_eq_true_eq] at ih ⊢
        rw [if_pos ha]
        by_cases hk : k = a
        · subst hk
          rw [lookup_cons_self, lookup_cons_self]
        · rw [lookup_cons_ne _ a v k hk, lookup_cons_ne _ a v k hk, ih]

/-- The inductive invariant of the conntrack layer: every key in the
table belongs to a task that is either still inside its reply loop or
has exited it and is pending its post-loop removal. -/
theorem flowReach_inv (s : FlowSys) (h : FlowReach s) :
    ∀ k, (s.table.lookup k).isSome → k ∈ s.looping ∨ k ∈ s.pending := by
  induction h with
  | init => intro k hk; simp [FlowSys.init, List.lookup] at hk
  | step hr hst ih =>
    rename_i s t
    cases hst with
    | ingressVacant peer hpeer =>
      intro k hk
      show k ∈ peer :: s.looping ∨ k ∈ s.pending
      by_cases heq : k = peer
      · left; simp [heq]
      · have hk2 : (((peer, s.nextId) :: s.table).lookup k).isSome = true := hk
        rw [lookup_cons_ne _ _ _ _ heq] at hk2
        rcases ih k hk2 with hl | hp
        · left; simp [hl]
        · right; exact hp
    | ingressOccupied peer e hpeer => exact ih
    | loopExit peer hpeer =>
      intro k hk
      show k ∈ s.looping.erase peer ∨ k ∈ peer :: s.pending
      have hk2 : (s.table.lookup k).isSome = true := hk
      rcases ih k hk2 with hl | hp
      · by_cases hkp : k = peer
        · right; simp [hkp]
        · left; exact (List.mem_erase_of_ne hkp).mpr hl
      · right; simp [hp]
    | removeEntry peer hpeer =>
      intro k hk
      show k ∈ s.looping ∨ k ∈ s.pending.erase peer
      have hk2 : ((removeKey s.table peer).lookup k).isSome = true := hk
      by_cases hkp : k = peer
      · subst hkp
        rw [lookup_removeKey_self] at hk2
        simp at hk2
      · rw [lookup_removeKey_ne _ _ _ hkp] at hk2
        rcases ih k hk2 with hl | hp
        · left; exact hl
        · right; exact (List.mem_erase_of_ne hkp).mpr hp

/-- A reachable state in which the flow for peer `0` exists in the table
while its reply task has exited its loop and is pending removal. -/
theorem flowReach_example : FlowReach ⟨[(0, 0)], [], [0], 1⟩ := by
  have h1 : FlowStep FlowSys.init ⟨[(0, 0)], [0], [], 1⟩ :=
    FlowStep.ingressVacant FlowSys.init 0 rfl
  have h2 : FlowStep ⟨[(0, 0)], [0], [], 1⟩ ⟨[(0, 0)], [], [0], 1⟩ := by
    have := FlowStep.loopExit ⟨[(0, 0)], [0], [], 1⟩ 0 (by simp)
    simpa using this
  exact FlowReach.step (FlowReach.step FlowReach.init h1) h2

/-- `getD` after `drop` reads the shifted index of the original list. -/
theorem getD_drop (l : List Nat) (m j d : Nat) : (l.drop m).getD j d = l.getD (m + j) d := by
  rw [List.getD_eq_getElem?_getD, List.getD_eq_getElem?_getD, List.getElem?_drop]

/-- The payload handed to `ct_value.sock.send` by an ingress iteration
is the packet transformer applied to the received datagram, whatever
the previous buffer contents and whatever `send` later returns. -/
theorem runIteration_sentPayload (p : UdpProxy) (readBuf dgram : List Nat)
    (h : dgram.length ≤ readBuf.length) (sr : Except Nat Nat) :
    (p.runIteration readBuf (Except.ok dgram) (Except.ok ()) sr).sentPayload
      = some (p.packet_transformer dgram) := by
  have hmin : min dgram.length readBuf.length = dgram.length := Nat.min_eq_left h
  cases sr with
  | error e =>
    simp [UdpProxy.runIteration, recvInto, hmin, List.take_length, List.take_left]
  | ok m =>
    simp only [UdpProxy.runIteration, recvInto, hmin, List.take_length, List.take_left]
    split <;> rfl

/-- The payload handed to `listener.send_to` by a reply-loop iteration
is the packet transformer applied to the datagram received from the
upstream socket, whatever the previous buffer contents and whatever
`send_to` later returns. -/
theorem replyIteration_sentPayload (p : UdpProxy) (readBuf dgram : List Nat)
    (h : dgram.length ≤ readBuf.length) (str : Except Nat Nat) :
    (p.replyIteration readBuf (UpstreamEvent.recvCompleted (Except.ok dgram)) str).sentPayload
      = some (p.packet_transformer dgram) := by
  have hmin : min dgram.length readBuf.length = dgram.length := Nat.min_eq_left h
  cases str with
  | error e =>
    simp [UdpProxy.replyIteration, recvInto, hmin, List.take_length, List.take_left]
  | ok m =>
    simp [UdpProxy.replyIteration, recvInto, hmin, List.take_length, List.take_left]

/-- C1: `Head::transform` evaluated at `n = 2` on the one-byte buffer
`[5]` panics (modelled as `none`) instead of transforming the prefix
actually present, which per the specified behaviour
(`headSpecTransform`) would be `[5 XOR 1] = [4]`. -/
theorem head_panics_on_short_buffer :
    Head.transform ⟨Xor.transform ⟨[1]⟩, 2⟩ [5] = none ∧
      headSpecTransform (Xor.transform ⟨[1]⟩) 2 [5] = [4] := by
  constructor <;> rfl

/-- C2 (counterexample): `Head(Xor([7]), 1)` applied twice to the empty
buffer does not return the original buffer: the first application
already fails (Rust panics on `data[..1]` for an empty slice), so the
involution claim is false for `n > len(buf)`. -/
theorem head_xor_involution_counterexample :
    (Head.transform ⟨Xor.transform ⟨[7]⟩, 1⟩ []).bind
      (Head.transform ⟨Xor.transform ⟨[7]⟩, 1⟩) ≠ some [] := by
  intro h
  simp [Head.transform] at h

/-- C2 (amended): XOR is an involution on every buffer, and
`Head(Xor(k), n)` is an involution on every buffer whose length is at
least `n` (for shorter buffers `Head::transform` panics). -/
theorem xor_and_head_xor_involution (key buf : List Nat) (n : Nat) :
    Xor.transform ⟨key⟩ (Xor.transform ⟨key⟩ buf) = buf ∧
    (n ≤ buf.length →
      (Head.transform ⟨Xor.transform ⟨key⟩, n⟩ buf).bind
        (Head.transform ⟨Xor.transform ⟨key⟩, n⟩) = some buf) := by
  refine ⟨Xor.transform_transform _ _, ?_⟩
  intro hn
  have htake : (Xor.transform ⟨key⟩ (buf.take n)).length = n := by
    rw [Xor.transform_length]
    exact (List.length_take n buf).trans (Nat.min_eq_left hn)
  have hmidlen : (Xor.transform ⟨key⟩ (buf.take n) ++ buf.drop n).length = buf.length := by
    rw [List.length_append, htake, List.length_drop]
    omega
  simp only [Head.transform, if_pos hn, Option.some_bind]
  rw [if_pos (by rw [hmidlen]; exact hn)]
  rw [List.take_left' htake, List.drop_left' htake]
  rw [Xor.transform_transform]
  rw [List.take_append_drop]

/-- C2 (witness): the amended involution at `key = [7]`, `buf = [1, 2]`,
`n = 1`. -/
theorem xor_and_head_xor_involution_witness :
    (Head.transform ⟨Xor.transform ⟨[7]⟩, 1⟩ [1, 2]).bind
      (Head.transform ⟨Xor.transform ⟨[7]⟩, 1⟩) = some [1, 2] :=
  (xor_and_head_xor_involution [7] [1, 2] 1).2 (by decide)

/-- C5: `Xor::transform` keeps the buffer length, is a no-op for the
empty key, and xors byte `i` with `key[i mod len(key)]` (for the empty
key the cycled key byte defaults to `0`, so the pointwise formula also
degenerates to a no-op). -/
theorem xor_transform_pointwise (key buf : List Nat) :
    (Xor.transform ⟨key⟩ buf).length = buf.length ∧
    (key = [] → Xor.transform ⟨key⟩ buf = buf) ∧
    (∀ i, i < buf.length →
      (Xor.transform ⟨key⟩ buf).getD i 0 = buf.getD i 0 ^^^ key.getD (i % key.length) 0) := by
  refine ⟨Xor.transform_length _ _, ?_, ?_⟩
  · intro hk
    simp [Xor.transform, hk]
  · intro i hi
    by_cases hk : key.isEmpty
    · have hkey : key = [] := List.isEmpty_iff.mp hk
      simp [Xor.transform, hkey]
    · have := xorCycle_getD key buf 0 i hi
      simp only [Nat.zero_add] at this
      simp only [Xor.transform, hk, Bool.false_eq_true, if_neg]
      exact this

/-- C5 (witness): the pointwise formula at `key = [1, 2]`,
`buf = [10, 20, 30]`, index `2`. -/
theorem xor_transform_pointwise_witness :
    (Xor.transform ⟨[1, 2]⟩ [10, 20, 30]).getD 2 0 = 31 :=
  ((xor_transform_pointwise [1, 2] [10, 20, 30]).2.2 2 (by decide)).trans (by decide)

/-- C6: for `n ≤ len(data)`, `Head::transform` applies the inner
transform to the first `n` bytes and leaves every byte at position `n`
or beyond untouched (any inner transform acts in place on `&mut [u8]`
and therefore preserves length, the hypothesis `hlen`). -/
theorem head_restricts_inner_to_front (inner : List Nat → List Nat) (n : Nat)
    (data : List Nat) (hlen : ∀ l, (inner l).length = l.length) (hn : n ≤ data.length) :
    Head.transform ⟨inner, n⟩ data = some (inner (data.take n) ++ data.drop n) ∧
    (∀ i, n ≤ i → (inner (data.take n) ++ data.drop n).getD i 0 = data.getD i 0) := by
  refine ⟨by simp [Head.transform, hn], ?_⟩
  intro i hi
  have hl : (inner (data.take n)).length = n :=
    (hlen _).trans ((List.length_take n data).trans (Nat.min_eq_left hn))
  rw [List.getD_append_right _ _ _ _ (by rw [hl]; exact hi)]
  rw [hl, getD_drop]
  have : n + (i - n) = i := by omega
  rw [this]

/-- C6 (witness): `Head(Xor([1]), 1)` on `[5, 6]` transforms only the
first byte. -/
theorem head_restricts_inner_to_front_witness :
    Head.transform ⟨Xor.transform ⟨[1]⟩, 1⟩ [5, 6] = some [4, 6] :=
  ((head_restricts_inner_to_front (Xor.transform ⟨[1]⟩) 1 [5, 6]
    (fun l => Xor.transform_length ⟨[1]⟩ l) (by decide)).1).trans (by decide)

/-- C3 (counterexample): on the reply path a `send_to` error does NOT
let the loop continue: `listener.send_to(..).context(..)?` propagates
it, the reply loop exits and the flow is torn down. -/
theorem reply_send_to_error_counterexample :
    ((UdpProxy.mk id).replyIteration [0] (UpstreamEvent.recvCompleted (Except.ok [1]))
      (Except.error 5)).outcome ≠ ReplyOutcome.continueLoop := by
  intro h
  simp [UdpProxy.replyIteration, recvInto] at h

/-- C3 (amended): on the ingress path a `send` error or a short send
count is logged and the loop continues; on the reply path a `send_to`
ERROR exits the reply loop (tearing the flow down), and a short
`send_to` count is ignored (not even logged) while the loop
continues. -/
theorem send_error_disposition (p : UdpProxy) (buf dgram : List Nat) (e m : Nat) :
    ((p.runIteration buf (Except.ok dgram) (Except.ok ()) (Except.error e)).outcome
        = IngressOutcome.sendErrLogged e) ∧
    (m ≠ min dgram.length buf.length →
      (p.runIteration buf (Except.ok dgram) (Except.ok ()) (Except.ok m)).outcome
        = IngressOutcome.shortSendLogged m (min dgram.length buf.length)) ∧
    ((p.replyIteration buf (UpstreamEvent.recvCompleted (Except.ok dgram))
        (Except.error e)).outcome = ReplyOutcome.exitErr e) ∧
    ((p.replyIteration buf (UpstreamEvent.recvCompleted (Except.ok dgram))
        (Except.ok m)).outcome = ReplyOutcome.continueLoop) := by
  refine ⟨?_, ?_, ?_, ?_⟩
  · simp [UdpProxy.runIteration, recvInto]
  · intro hm
    simp [UdpProxy.runIteration, recvInto, hm]
  · simp [UdpProxy.replyIteration, recvInto]
  · simp [UdpProxy.replyIteration, recvInto]

/-- C3 (witness): a short ingress send (`0` of `1` bytes) is logged and
the loop continues. -/
theorem send_error_disposition_witness :
    ((UdpProxy.mk id).runIteration [0] (Except.ok [5]) (Except.ok ()) (Except.ok 0)).outcome
      = IngressOutcome.shortSendLogged 0 1 :=
  ((send_error_disposition (UdpProxy.mk id) [0] [5] 7 0).2.1 (by decide)).trans (by decide)

/-- C4 (counterexample): with `ipv4_only = true` AND `ipv6_only = true`
an input resolving to one IPv4 address still passes the filter and the
function returns a NON-empty list, not a fatal error. -/
theorem both_only_flags_counterexample :
    resolve_and_filter_ips (fun a => if a = 0 then some [⟨true, 0⟩] else none) [0]
      ⟨true, true⟩ = Except.ok [⟨true, 0⟩] := rfl

/-- C4 (amended): when both flags are set, `ipv4_only` takes precedence
— the `else if` chain never consults `ipv6_only` — so the result is
exactly that of an `ipv4_only`-only configuration: IPv4 addresses pass,
and a fatal error occurs only when no IPv4 address resolved. -/
theorem both_only_flags_ipv4_precedence (resolved : Nat → Option (List SocketAddress))
    (addresses : List Nat) :
    resolve_and_filter_ips resolved addresses ⟨true, true⟩
      = resolve_and_filter_ips resolved addresses ⟨true, false⟩ := rfl

/-- C7: both paths send the SAME transform of the bytes just received:
the ingress iteration hands `packet_transformer(dgram)` to
`ct_value.sock.send`, and the reply iteration hands
`packet_transformer(dgram)` to `listener.send_to`. -/
theorem transform_applied_symmetrically (p : UdpProxy) (ibuf rbuf dgram : List Nat) :
    (dgram.length ≤ ibuf.length → ∀ sr : Except Nat Nat,
      (p.runIteration ibuf (Except.ok dgram) (Except.ok ()) sr).sentPayload
        = some (p.packet_transformer dgram)) ∧
    (dgram.length ≤ rbuf.length → ∀ str : Except Nat Nat,
      (p.replyIteration rbuf (UpstreamEvent.recvCompleted (Except.ok dgram)) str).sentPayload
        = some (p.packet_transformer dgram)) :=
  ⟨fun h sr => runIteration_sentPayload p ibuf dgram h sr,
   fun h str => replyIteration_sentPayload p rbuf dgram h str⟩

/-- C7 (witness): with transformer `Xor([1])`, both paths send `[4]`
for the received datagram `[5]`. -/
theorem transform_applied_symmetrically_witness :
    ((UdpProxy.mk (Xor.transform ⟨[1]⟩)).runIteration [0, 0] (Except.ok [5])
        (Except.ok ()) (Except.ok 1)).sentPayload = some [4] ∧
    ((UdpProxy.mk (Xor.transform ⟨[1]⟩)).replyIteration [0, 0]
        (UpstreamEvent.recvCompleted (Except.ok [5])) (Except.ok 1)).sentPayload = some [4] := by
  have h := transform_applied_symmetrically (UdpProxy.mk (Xor.transform ⟨[1]⟩)) [0, 0] [0, 0] [5]
  exact ⟨(h.1 (by decide) (Except.ok 1)).trans (by decide),
    (h.2 (by decide) (Except.ok 1)).trans (by decide)⟩

/-- C8: under the table lock, `get_or_insert_conntrack_entry` returns
the existing entry and leaves the table unchanged on the occupied
branch; on the vacant branch it inserts exactly one entry for that key
(other keys' lookups unchanged, key distinctness preserved, so at most
one entry per peer exists); and a new upstream socket is created
exactly on the vacant branch. -/
theorem get_or_insert_spec (table : List (Nat × Nat)) (peer : Nat) (cr : Except Nat Nat) :
    (∀ e, table.lookup peer = some e →
      get_or_insert_conntrack_entry table peer cr = Except.ok ⟨e, table, false⟩) ∧
    (∀ fresh, table.lookup peer = none → cr = Except.ok fresh →
      get_or_insert_conntrack_entry table peer cr
          = Except.ok ⟨fresh, (peer, fresh) :: table, true⟩ ∧
        ((peer, fresh) :: table).lookup peer = some fresh ∧
        (∀ k, k ≠ peer → ((peer, fresh) :: table).lookup k = table.lookup k) ∧
        ((table.map Prod.fst).Nodup → (((peer, fresh) :: table).map Prod.fst).Nodup)) ∧
    (∀ r, get_or_insert_conntrack_entry table peer cr = Except.ok r →
      (r.createdSocket = true ↔ table.lookup peer = none)) := by
  refine ⟨?_, ?_, ?_⟩
  · intro e he
    simp [get_or_insert_conntrack_entry, he]
  · intro fresh hn hcr
    subst hcr
    refine ⟨by simp [get_or_insert_conntrack_entry, hn], lookup_cons_self _ _ _,
      fun k hk => lookup_cons_ne _ _ _ _ hk, fun hnd => ?_⟩
    simp only [List.map_cons, List.nodup_cons]
    exact ⟨not_mem_keys_of_lookup_none table peer hn, hnd⟩
  · intro r hr
    cases hl : table.lookup peer with
    | some e =>
      simp only [get_or_insert_conntrack_entry, hl, Except.ok.injEq] at hr
      rw [← hr]
      simp [hl]
    | none =>
      cases cr with
      | error e2 => simp [get_or_insert_conntrack_entry, hl] at hr
      | ok fresh =>
        simp only [get_or_insert_conntrack_entry, hl, Except.ok.injEq] at hr
        rw [← hr]
        simp [hl]

/-- C8 (witness): the occupied branch at `table = [(1, 5)]`, `peer = 1`
and the vacant branch at `peer = 2`. -/
theorem get_or_insert_spec_witness :
    get_or_insert_conntrack_entry [(1, 5)] 1 (Except.ok 9) = Except.ok ⟨5, [(1, 5)], false⟩ ∧
    get_or_insert_conntrack_entry [(1, 5)] 2 (Except.ok 9)
      = Except.ok ⟨9, [(2, 9), (1, 5)], true⟩ :=
  ⟨(get_or_insert_spec [(1, 5)] 1 (Except.ok 9)).1 5 rfl,
   ((get_or_insert_spec [(1, 5)] 2 (Except.ok 9)).2.1 9 rfl rfl).1⟩

/-- C9 (counterexample): in the reachable state where peer `0`'s reply
loop has exited but its post-loop removal has not yet run, the key is
still in the table while NO reply task for it is inside its loop — the
claim's invariant (a task "whose loop has not yet exited") fails at
this observation point. -/
theorem table_key_without_looping_task :
    FlowReach ⟨[(0, 0)], [], [0], 1⟩ ∧
    (((⟨[(0, 0)], [], [0], 1⟩ : FlowSys).table.lookup 0).isSome = true) ∧
    (0 : Nat) ∉ (⟨[(0, 0)], [], [0], 1⟩ : FlowSys).looping :=
  ⟨flowReach_example, by decide, by decide⟩

/-- C9 (amended): in every reachable state, every key in the conntrack
table belongs to a reply task that is either still inside its loop or
has exited and is pending its post-loop removal; for every pending
task, the removal step is enabled and erases that flow's entry from the
table. -/
theorem table_key_has_live_or_pending_task (s : FlowSys) (h : FlowReach s) :
    (∀ k, (s.table.lookup k).isSome → k ∈ s.looping ∨ k ∈ s.pending) ∧
    (∀ peer, peer ∈ s.pending →
      FlowStep s ⟨removeKey s.table peer, s.looping, s.pending.erase peer, s.nextId⟩ ∧
      (removeKey s.table peer).lookup peer = none) :=
  ⟨flowReach_inv s h,
   fun peer hp => ⟨FlowStep.removeEntry s peer hp, lookup_removeKey_self s.table peer⟩⟩

/-- C9 (witness): the amended invariant evaluated in the reachable
state reached by `flowReach_example`: key `0` is in the table and its
task is pending removal. -/
theorem table_key_has_live_or_pending_task_witness :
    (0 : Nat) ∈ (⟨[(0, 0)], [], [0], 1⟩ : FlowSys).looping ∨
      (0 : Nat) ∈ (⟨[(0, 0)], [], [0], 1⟩ : FlowSys).pending :=
  (table_key_has_live_or_pending_task ⟨[(0, 0)], [], [0], 1⟩ flowReach_example).1 0 (by decide)

/-- C10: the forwarded payload depends only on the current datagram:
two iterations (of either loop) whose current datagram is equal hand
equal payloads to `send`/`send_to`, regardless of the stale bytes each
reused 65535-byte buffer still holds from earlier datagrams. -/
theorem forwarded_bytes_depend_only_on_datagram (p : UdpProxy) (b1 b2 dgram : List Nat)
    (h1 : dgram.length ≤ b1.length) (h2 : dgram.length ≤ b2.length) :
    (∀ sr1 sr2 : Except Nat Nat,
      (p.runIteration b1 (Except.ok dgram) (Except.ok ()) sr1).sentPayload
        = (p.runIteration b2 (Except.ok dgram) (Except.ok ()) sr2).sentPayload) ∧
    (∀ str1 str2 : Except Nat Nat,
      (p.replyIteration b1 (UpstreamEvent.recvCompleted (Except.ok dgram)) str1).sentPayload
        = (p.replyIteration b2 (UpstreamEvent.recvCompleted (Except.ok dgram)) str2).sentPayload) :=
  ⟨fun sr1 sr2 => (runIteration_sentPayload p b1 dgram h1 sr1).trans
      (runIteration_sentPayload p b2 dgram h2 sr2).symm,
   fun str1 str2 => (replyIteration_sentPayload p b1 dgram h1 str1).trans
      (replyIteration_sentPayload p b2 dgram h2 str2).symm⟩

/-- C10 (witness): buffers with different stale contents (`[7, 8]` vs
`[9, 9]`) forward the same payload for the same datagram `[5]`. -/
theorem forwarded_bytes_depend_only_on_datagram_witness :
    ((UdpProxy.mk id).runIteration [7, 8] (Except.ok [5]) (Except.ok ())
        (Except.ok 1)).sentPayload
      = ((UdpProxy.mk id).runIteration [9, 9] (Except.ok [5]) (Except.ok ())
        (Except.error 3)).sentPayload :=
  (forwarded_bytes_depend_only_on_datagram (UdpProxy.mk id) [7, 8] [9, 9] [5]
    (by decide) (by decide)).1 (Except.ok 1) (Except.error 3)

end UdpObfuscat
